import Mathlib

set_option maxRecDepth 200000

/-!
Verification of the Rust code generator in `src/td/generate/tl_rust_converter.cpp`.

The generator walks an in-memory TL schema (types, constructors, functions) and
emits Rust source text: structs, tagged-union enums, conversion impls, and a
final read-compare-write step.  The embedding below translates the generator's
functions into Lean.  The schema data model itself (`td::tl::simple`, declared
in `td/tl/tl_simple.h`) is not part of the two source files, so it is modelled
from the specification's data-model section.

C++ functions are partial (the lifetime analysis can recurse forever on a
cyclic schema), so the recursive analysis is embedded with an explicit fuel
parameter: a result `none` means the fuel ran out, and divergence of the C++
function corresponds to the result being `none` for every fuel.
-/

/-- Modelled from the spec: the schema field-type variant of `td::tl::simple::Type`
(declared in td/tl/tl_simple.h, which is not under src/).  The spec closes it over
Bool, Int32, Int64, Int53, Double, String, Bytes, Vector and Custom; the Custom
variant's non-owning pointer into the schema is modelled as the referenced
CustomType's (unique) name. -/
inductive SimpleType where
  | bool
  | int32
  | int53
  | int64
  | double
  | string
  | bytes
  | vector (elem : SimpleType)
  | custom (name : String)
deriving DecidableEq, Repr

/-- Modelled from the spec: `td::tl::simple::Arg`, a named field with one type. -/
structure Arg where
  name : String
  type : SimpleType
deriving DecidableEq, Repr

/-- Modelled from the spec: `td::tl::simple::Constructor` — a named variant with an
ordered argument list and a back-reference to its parent CustomType (modelled by the
parent's unique name, `constructor->type->name`).  `td::tl::simple::Function` is
structurally identical per the spec, so functions are represented by the same
structure (with `typeName` the declaration's result type, which the emitter passes
as the self-reference guard). -/
structure Constructor where
  name : String
  typeName : String
  args : List Arg
deriving DecidableEq, Repr

/-- Modelled from the spec: `td::tl::simple::CustomType`, a named grouping owning an
ordered list of constructors. -/
structure CustomType where
  name : String
  constructors : List Constructor
deriving DecidableEq, Repr

/-- Modelled from the spec: `td::tl::simple::Schema`, the root value with an ordered
collection of custom types and an ordered collection of functions. -/
structure Schema where
  custom_types : List CustomType
  functions : List Constructor
deriving DecidableEq, Repr

/-- Dereference a Custom reference: find the named CustomType in the schema and give
its constructor list (the C++ `type.custom->constructors`).  A valid schema always
resolves; a missing name yields the empty list. -/
def Schema.lookupConstructors (sch : Schema) (n : String) : List Constructor :=
  match sch.custom_types.find? (fun ct => ct.name == n) with
  | some ct => ct.constructors
  | none => []

/-- Modelled from the spec: `tl::simple::gen_cpp_name` (declared in tl_simple.h, not
under src/).  The spec's Name Transformer describes no transformation beyond
capitalization, prefix stripping and reserved-word renaming, so the upstream name
mapping is modelled as the identity. -/
def gen_cpp_name (s : String) : String := s

/-- ASCII uppercase test, the C `isupper` in the C locale (tl_rust_converter.cpp line 27). -/
def isupperChar (c : Char) : Bool := 'A' ≤ c && c ≤ 'Z'

/-- ASCII uppercase conversion, the C `::toupper` used by `capitalize_first`. -/
def toupperChar (c : Char) : Char :=
  if 'a' ≤ c && c ≤ 'z' then Char.ofNat (c.toNat - 32) else c

/-- Character of `s` at index `n` (the C++ `str[n]`); callers guarantee `n` is in
range, the default is arbitrary. -/
def charAt (s : String) (n : Nat) : Char := s.data.getD n 'x'

/-- Embeds `remove_prefix` (tl_rust_converter.cpp lines 23-31): strip `pre` from the
front of `str` only when `pre` is strictly shorter, `str` starts with `pre`, and the
character right after the prefix is uppercase. -/
def removePrefix (str pre : String) : String :=
  if pre.length ≥ str.length then str
  else if str.take pre.length = pre ∧ isupperChar (charAt str pre.length) then
    str.drop pre.length
  else str

/-- Embeds `capitalize_first` (lines 33-36): uppercase the first character.  The C++
is undefined on the empty string (spec section 4.1); the model returns it unchanged. -/
def capitalizeFirst (s : String) : String :=
  match s.data with
  | [] => s
  | c :: rest => String.mk (toupperChar c :: rest)

/-- The apostrophe character, used to build the Rust lifetime tick in emitted text. -/
def tick : String := String.singleton (Char.ofNat 39)

/-- The Rust lifetime parameter text that the generator writes after type names. -/
def lt_a : String := "<" ++ tick ++ "a>"

mutual

/-- Embeds the `needs_lifetime` overload on `td::tl::simple::Type` (lines 64-76):
Bytes and String need a lifetime, a Vector defers to its element, a Custom type
defers to all of the referenced type's constructors, everything else does not.
`fuel` bounds the recursion depth (the C++ recursion is unbounded and has no cycle
guard); `none` means the fuel was exhausted. -/
def needsLifetimeType (sch : Schema) : Nat → SimpleType → Option Bool
  | 0, _ => none
  | _ + 1, .bytes => some true
  | _ + 1, .string => some true
  | fuel + 1, .vector elem => needsLifetimeType sch fuel elem
  | fuel + 1, .custom n => needsLifetimeConsList sch fuel (sch.lookupConstructors n)
  | _ + 1, .bool => some false
  | _ + 1, .int32 => some false
  | _ + 1, .int53 => some false
  | _ + 1, .int64 => some false
  | _ + 1, .double => some false

/-- Embeds the `needs_lifetime` overload on argument lists (lines 40-46): true iff
some argument's type needs a lifetime, scanning left to right and short-circuiting. -/
def needsLifetimeArgs (sch : Schema) : Nat → List Arg → Option Bool
  | 0, _ => none
  | _ + 1, [] => some false
  | fuel + 1, a :: rest =>
    match needsLifetimeType sch fuel a.type with
    | none => none
    | some true => some true
    | some false => needsLifetimeArgs sch fuel rest

/-- Embeds the `needs_lifetime` overloads on constructor and function lists (lines
48-62, both folds are identical): true iff some element's argument list needs a
lifetime, scanning left to right and short-circuiting. -/
def needsLifetimeConsList (sch : Schema) : Nat → List Constructor → Option Bool
  | 0, _ => none
  | _ + 1, [] => some false
  | fuel + 1, c :: rest =>
    match needsLifetimeArgs sch fuel c.args with
    | none => none
    | some true => some true
    | some false => needsLifetimeConsList sch fuel rest

end

/-- Embeds `rust_type` (lines 78-107), the Type Projector.  `parent` is the
enclosing parent CustomType used for the self-reference guard (the C++ passes a
`CustomType*`; pointer identity is modelled by name equality, names being unique
per the spec's invariants).  The Vector case recurses with the C++ default
`parent = nullptr`.  The Custom case first runs `needs_lifetime` on the referenced
type (fuel-bounded, hence the `Option`); the switch covers every variant of the
spec's closed Type model, so the C++ fall-through `return "unimplemented"` after
the switch (line 106) has no reachable counterpart here. -/
def rustType (sch : Schema) (fuel : Nat) : SimpleType → Option String → Option String
  | .bytes, _ => some ("Option<&" ++ tick ++ "a [u8]>")
  | .bool, _ => some "bool"
  | .int64, _ => some "i64"
  | .int53, _ => some "i64"
  | .int32, _ => some "i32"
  | .double, _ => some "f64"
  | .string, _ => some ("Option<Cow<" ++ tick ++ "a, str>>")
  | .vector elem, _ =>
    (rustType sch fuel elem none).map (fun s => "Vec<" ++ s ++ ">")
  | .custom n, parent =>
    (needsLifetimeType sch fuel (.custom n)).map (fun nl =>
      let name := n ++ (if nl then lt_a else "")
      let name := if parent = some n then "Box<" ++ name ++ ">" else name
      "Option<" ++ name ++ ">")

/-- Embeds `rust_field_attr` (lines 115-121): a String field gets the custom
copy-on-write decode attribute; otherwise any field whose type needs a lifetime
gets the generic borrow attribute; all other fields get the empty attribute. -/
def rustFieldAttr (sch : Schema) (fuel : Nat) (t : SimpleType) : Option String :=
  match t with
  | .string => some ("#[serde(borrow, deserialize_with=\"crate::cow_de::de_opt_cow_str\")]")
  | _ => (needsLifetimeType sch fuel t).map (fun b => if b then "#[serde(borrow)]" else "")

/-- Embeds the per-argument body of the loop in `gen_rust_struct` (lines 138-152):
the transformed field name, the reserved-word rename of `type` to `typ` together
with its wire-name override, the optional field attribute, and the projected type
(with the declaration's parent type as the self-reference guard). -/
def genRustStructArg (sch : Schema) (fuel : Nat) (parent : String) (arg : Arg) :
    Option String :=
  let fieldName := gen_cpp_name arg.name
  let renamePart := if fieldName = "type" then "\t#[serde(rename=\"type\")]\n" else ""
  let fieldName := if fieldName = "type" then "typ" else fieldName
  match rustFieldAttr sch fuel arg.type with
  | none => none
  | some typeAttrs =>
    let attrPart := if typeAttrs ≠ "" then "\t\t" ++ typeAttrs ++ "\n" else ""
    match rustType sch fuel arg.type (some parent) with
    | none => none
    | some ty =>
      some (renamePart ++ attrPart ++ "\t\tpub " ++ fieldName ++ ": " ++ ty ++ ",\n")

/-- Embeds `gen_rust_struct` (lines 125-155): one struct per constructor or
function, a unit struct when the argument list is empty, otherwise one field per
argument and a lifetime parameter iff the argument list needs one. -/
def genRustStruct (sch : Schema) (fuel : Nat) (c : Constructor) : Option String := do
  let capitalized := capitalizeFirst c.name
  let head := "\t#[derive(Serialize, Deserialize, Clone, Debug)]\n\tpub struct " ++ capitalized
  if c.args.length = 0 then
    return head ++ ";\n\n"
  else
    let nl ← needsLifetimeArgs sch fuel c.args
    let fields ← c.args.mapM (genRustStructArg sch fuel c.typeName)
    return head ++ (if nl then lt_a else "") ++ " \x7b\n" ++ String.join fields ++ "\t\x7d\n\n"

/-- Embeds `gen_rust_structs` (lines 157-173): the `types` module with one struct
per constructor of every custom type (each preceded by a super-type comment naming
the constructor's parent), then the `functions` module with one struct per
function, all in schema order. -/
def genRustStructs (sch : Schema) (fuel : Nat) : Option String := do
  let typeStructs ← (sch.custom_types.flatMap (fun ct => ct.constructors)).mapM
    (fun c => (genRustStruct sch fuel c).map
      (fun s => "\t/// Super type: " ++ c.typeName ++ "\n" ++ s))
  let funcStructs ← sch.functions.mapM (genRustStruct sch fuel)
  return "/// API Types\npub mod types \x7b\n\tuse super::\x7b*, dynamic::*\x7d;\n"
    ++ String.join typeStructs ++ "\x7d\n\n"
    ++ "/// API functions\npub mod functions \x7b\n\tuse super::\x7b*, dynamic::*, types::*\x7d;\n"
    ++ String.join funcStructs ++ "\x7d\n\n"

/-- Embeds one iteration of the enum-definition loop of the template
`gen_rust_enums` (lines 190-203): the wire-name rename attribute, the
prefix-stripped variant name, and the wrapped structure type with its borrow
attribute and lifetime when the constructor's arguments need one. -/
def enumVariantLine (name : String) (cons : Constructor) (argNL : Bool) : String :=
  let capitalized := capitalizeFirst cons.name
  let variantName := removePrefix capitalized name
  "\t\t#[serde(rename=\"" ++ cons.name ++ "\")]\n\t\t" ++ variantName ++ "("
    ++ (if argNL then "#[serde(borrow)]" else "") ++ capitalized
    ++ (if argNL then lt_a else "") ++ "),\n"

/-- Embeds one iteration of the From-impl loop of the template `gen_rust_enums`
(lines 207-217): the one-directional conversion from the bare structure type into
the union. -/
def enumFromImplLine (name : String) (tyNL : Bool) (cons : Constructor) (argNL : Bool) :
    String :=
  let capitalized := capitalizeFirst cons.name
  let variantName := removePrefix capitalized name
  "\timpl" ++ (if tyNL then lt_a else "") ++ " From<" ++ capitalized
    ++ (if argNL then lt_a else "") ++ "> for " ++ name ++ (if tyNL then lt_a else "")
    ++ " \x7b fn from(v: " ++ capitalized ++ (if argNL then lt_a else "")
    ++ ") -> Self \x7b Self::" ++ variantName ++ "(v) \x7d\x7d\n"

/-- Embeds the `TryFrom<Object>` and `Into<Object>` section of the template
`gen_rust_enums` (lines 219-248), emitted only when `generate_from_object` is set:
the fallible conversion from the maximal `Object` union (unmatched variants are
returned as the error) and the total conversion into it. -/
def tryFromIntoText (name : String) (tyNL : Bool) (vec : List Constructor) : String :=
  "\timpl" ++ lt_a ++ " TryFrom<Object" ++ lt_a ++ "> for " ++ name
    ++ (if tyNL then lt_a else "") ++ "\x7b\n"
  ++ "\t\ttype Error = Object" ++ lt_a ++ ";\n"
  ++ "\t\tfn try_from(v: Object" ++ lt_a ++ ") -> Result<Self, Object" ++ lt_a ++ "> \x7b\n"
  ++ "\t\t\tmatch v \x7b\n"
  ++ String.join (vec.map (fun cons =>
      "\t\t\t\tObject::" ++ capitalizeFirst cons.name ++ "(v) => Result::Ok(Self::"
        ++ removePrefix (capitalizeFirst cons.name) name ++ "(v)),\n"))
  ++ "\t\t\t\tv @ _ => Result::Err(v),\n"
  ++ "\t\t\t\x7d\n\t\t\x7d\n\t\x7d\n"
  ++ "\timpl" ++ lt_a ++ " Into<Object" ++ lt_a ++ "> for " ++ name
    ++ (if tyNL then lt_a else "") ++ "\x7b\n"
  ++ "\t\tfn into(self) -> Object" ++ lt_a ++ " \x7b\n"
  ++ "\t\t\tmatch self \x7b\n"
  ++ String.join (vec.map (fun cons =>
      "\t\t\t\tSelf::" ++ removePrefix (capitalizeFirst cons.name) name
        ++ "(v) => Object::" ++ capitalizeFirst cons.name ++ "(v),\n"))
  ++ "\t\t\t\x7d\n\t\t\x7d\n\t\x7d\n"

/-- Embeds the template overload of `gen_rust_enums` (lines 175-251): the tagged
union's header with its lifetime parameter, one variant per element, the From impl
per element, and — only when `generateFromObject` is set — the TryFrom/Into
conversions against the maximal `Object` union.  The C++ recomputes
`needs_lifetime(cons->args)` in each loop; the pure result is computed once per
element here. -/
def genRustEnumsT (sch : Schema) (fuel : Nat) (name : String) (vec : List Constructor)
    (generateFromObject : Bool) : Option String :=
  match needsLifetimeConsList sch fuel vec with
  | none => none
  | some tyNL =>
    match vec.mapM (fun c => (needsLifetimeArgs sch fuel c.args).map (fun b => (c, b))) with
    | none => none
    | some consNL =>
      some ("\t#[derive(Serialize, Deserialize, Clone, Debug)]\n\t#[serde(tag=\"@type\")]\n\tpub enum "
        ++ name ++ (if tyNL then lt_a else "") ++ " \x7b\n"
        ++ String.join (consNL.map (fun p => enumVariantLine name p.1 p.2))
        ++ "\t\x7d\n"
        ++ String.join (consNL.map (fun p => enumFromImplLine name tyNL p.1 p.2))
        ++ (if generateFromObject then tryFromIntoText name tyNL vec else "")
        ++ "\n")

/-- One invocation of the template `gen_rust_enums` as issued by the Schema
overload: the union's name, the constructors it wraps, and the
`generate_from_object` flag. -/
structure EnumCall where
  name : String
  vec : List Constructor
  genFromObject : Bool
deriving DecidableEq, Repr

/-- The loop of the Schema overload of `gen_rust_enums` (lines 257-268): walk the
custom types accumulating every constructor into `vec_for_nullary` (the second
component) and record a per-type union call (with `generate_from_object = true`)
for each custom type with more than one constructor. -/
def enumCallsAux : List CustomType → List Constructor → List EnumCall × List Constructor
  | [], acc => ([], acc)
  | ct :: rest, acc =>
    let vec := ct.constructors
    let res := enumCallsAux rest (acc ++ vec)
    ((if 1 < vec.length then [⟨gen_cpp_name ct.name, vec, true⟩] else []) ++ res.1, res.2)

/-- The sequence of template invocations issued by the Schema overload of
`gen_rust_enums` (lines 253-278): the per-type unions from the loop, then the
synthetic `Object` union over every accumulated constructor, then the synthetic
`Function` union over every function — the latter two with the C++ default
`generate_from_object = false`. -/
def enumCalls (sch : Schema) : List EnumCall :=
  let res := enumCallsAux sch.custom_types []
  res.1 ++ [⟨"Object", res.2, false⟩, ⟨"Function", sch.functions, false⟩]

/-- Embeds the Schema overload of `gen_rust_enums` (lines 253-278): the `dynamic`
module wrapping the texts of all the template invocations of `enumCalls`. -/
def genRustEnums (sch : Schema) (fuel : Nat) : Option String := do
  let bodies ← (enumCalls sch).mapM
    (fun call => genRustEnumsT sch fuel call.name call.vec call.genFromObject)
  return "/// Enums containing type markers and subclasses\npub mod dynamic \x7b\n\tuse super::\x7b*, types::*, functions::*\x7d;\n"
    ++ String.join bodies ++ "\x7d\n\n"

/-- The pieces appended to the StringBuilder by `gen_rust_file` (lines 293-299):
the file header comments, the two use declarations, the enums module and the
structs module. -/
def genFilePieces (sch : Schema) (fuel : Nat) : Option (List String) := do
  let enums ← genRustEnums sch fuel
  let structs ← genRustStructs sch fuel
  return ["//! Auto-generated JSON messages\n", "// Auto-generated, do not edit\n",
          "use serde::\x7bSerialize, Deserialize\x7d;\n",
          "use std::\x7bborrow::Cow, convert::TryFrom\x7d;\n",
          enums, structs]

/-- The full generated file text: the concatenation of the pieces. -/
def genFileContent (sch : Schema) (fuel : Nat) : Option String :=
  (genFilePieces sch fuel).map String.join

/-- The capacity of the scratch buffer `std::string buf(2000000, ' ')` handed to
the StringBuilder in `gen_rust_file` (line 290). -/
def sbCapacity : Nat := 2000000

/-- Modelled from the spec: the observable state of `td::StringBuilder` (tdutils,
not under src/) — the number of characters requested so far and the sticky
overflow flag that `sb.is_error()` reports once the writes exceed the fixed
buffer's capacity. -/
structure SBState where
  len : Nat
  error : Bool
deriving DecidableEq, Repr

/-- Modelled from the spec: appending one string to the StringBuilder — the
requested length grows and the error flag is set once the capacity is exceeded. -/
def sbPush (st : SBState) (s : String) : SBState :=
  ⟨st.len + s.length, st.error || decide (sbCapacity < st.len + s.length)⟩

/-- The StringBuilder state after appending all the pieces of the file. -/
def sbBuild (pieces : List String) : SBState := pieces.foldl sbPush ⟨0, false⟩

/-- The observable outcome of one `gen_rust_file` run: the analysis recursed
forever, the `CHECK(!sb.is_error())` assertion aborted the run, or the run
finished with the given content and write decision. -/
inductive RunOutcome where
  | diverged
  | aborted
  | finished (content : String) (wrote : Bool)
deriving DecidableEq, Repr

/-- Embeds `gen_rust_file` (lines 280-317) on the non-Windows path: the prior
file content (`old = none` models a failed read, treated as empty, lines 282-288),
the build of the new content, the `CHECK(!sb.is_error())` overflow assertion
(line 301), and the conditional write (lines 314-316) performed exactly when the
new content differs from the baseline. -/
def runGenRustFile (sch : Schema) (fuel : Nat) (old : Option String) : RunOutcome :=
  let baseline := old.getD ""
  match genFilePieces sch fuel with
  | none => .diverged
  | some ps =>
    if (sbBuild ps).error then .aborted
    else .finished (String.join ps) (String.join ps != baseline)

/-- Whether `pat` occurs as a contiguous run inside the character list. -/
def listHasInfix (pat : List Char) : List Char → Bool
  | [] => pat.isEmpty
  | c :: rest => pat.isPrefixOf (c :: rest) || listHasInfix pat rest

/-- Whether `pat` occurs as a substring of `s`. -/
def strHasSubstr (s pat : String) : Bool := listHasInfix pat.data s.data

/-- The Custom-type names referenced directly by a field type (descending through
Vector). -/
def typeCustomNames : SimpleType → List String
  | .vector elem => typeCustomNames elem
  | .custom n => [n]
  | _ => []

/-- The schema's Custom references admit a strictly decreasing rank: every Custom
name appearing in a field of a CustomType's constructor ranks strictly below the
CustomType itself.  This is exactly acyclicity of the Custom-reference graph. -/
def RankDecreasing (sch : Schema) (rank : String → Nat) : Prop :=
  ∀ ct ∈ sch.custom_types, ∀ c ∈ ct.constructors, ∀ a ∈ c.args,
    ∀ m ∈ typeCustomNames a.type, rank m < rank ct.name

/-- The C++ `needs_lifetime(type)` call terminates: some finite recursion depth
suffices for the fuel-indexed embedding to deliver a result. -/
def NeedsLifetimeTerminates (sch : Schema) (t : SimpleType) : Prop :=
  ∃ n, (needsLifetimeType sch n t).isSome

/-- Test schema from the spec's end-to-end scenario: one CustomType `Shape` with
constructors `shapeCircle { radius : Double }` and `shapeSquare { side : Double }`
and no functions. -/
def shapeSchema : Schema :=
  ⟨[⟨"Shape", [⟨"shapeCircle", "Shape", [⟨"radius", .double⟩]⟩,
               ⟨"shapeSquare", "Shape", [⟨"side", .double⟩]⟩]⟩], []⟩

/-- Every constructor of `shapeSchema`, in schema order. -/
def shapeAllCons : List Constructor :=
  shapeSchema.custom_types.flatMap (fun ct => ct.constructors)

/-- Test schema with a self-referential CustomType whose lifetime analysis still
terminates (the String field is found before the cycle is re-entered): `Tree`
with constructor `tree { name : String, children : Vector(Custom(Tree)) }`. -/
def treeSchema : Schema :=
  ⟨[⟨"Tree", [⟨"tree", "Tree", [⟨"name", .string⟩,
                                ⟨"children", .vector (.custom "Tree")⟩]⟩]⟩], []⟩

/-- Test schema with a purely self-referential CustomType: `SelfRef` with the
single constructor `selfRef { next : Custom(SelfRef) }`. -/
def selfSchema : Schema :=
  ⟨[⟨"SelfRef", [⟨"selfRef", "SelfRef", [⟨"next", .custom "SelfRef"⟩]⟩]⟩], []⟩

/-- The argument list of `selfSchema`'s only constructor. -/
def selfArgs : List Arg := [⟨"next", .custom "SelfRef"⟩]

/-- The constructor list of `selfSchema`'s only CustomType. -/
def selfCons : List Constructor := [⟨"selfRef", "SelfRef", selfArgs⟩]

/-- Acyclic two-level test schema: `Leaf` with `leaf { val : String }` and `Node`
with `node { child : Custom(Leaf) }`. -/
def twoLevelSchema : Schema :=
  ⟨[⟨"Leaf", [⟨"leaf", "Leaf", [⟨"val", .string⟩]⟩]⟩,
    ⟨"Node", [⟨"node", "Node", [⟨"child", .custom "Leaf"⟩]⟩]⟩], []⟩

/-- A rank witnessing that `twoLevelSchema`'s Custom references are acyclic. -/
def rankTwo (s : String) : Nat := if s == "Node" then 1 else 0

/-- The text the template emits for the synthetic `Object` union of `shapeSchema`
(the call recorded by `enumCalls`, with `generate_from_object = false`). -/
def shapeObjectEnumText : String :=
  (genRustEnumsT shapeSchema 20 "Object" shapeAllCons false).getD ""

/-- The text the template emits for the per-type `Shape` union of `shapeSchema`
(the call recorded by `enumCalls`, with `generate_from_object = true`). -/
def shapeShapeEnumText : String :=
  (genRustEnumsT shapeSchema 20 "Shape" shapeAllCons true).getD ""

/-- The content produced by a first `gen_rust_file` run on `shapeSchema`. -/
def c5Content : String :=
  match runGenRustFile shapeSchema 20 none with
  | .finished c _ => c
  | _ => ""

/-- The content produced by a `gen_rust_file` run on `shapeSchema` (separate copy
supporting the read-failure baseline witness). -/
def c9Content : String :=
  match runGenRustFile shapeSchema 20 none with
  | .finished c _ => c
  | _ => ""

/-- A field literally named `type`, of Int32 type. -/
def c8Arg : Arg := ⟨"type", .int32⟩

/-- The emitted field text for the `type`-named field. -/
def c8Text : String := (genRustStructArg shapeSchema 5 "X" c8Arg).getD ""

/-- Claim C7: `stripPrefix` returns the name unchanged when the prefix is not
shorter than the name, when the name does not start with the prefix, or when the
character immediately after the prefix is not uppercase; otherwise it returns the
suffix after the prefix.  Stripping `Shape` from `ShapeCircle` yields `Circle`,
and from `Circle` yields `Circle` unchanged. -/
theorem removePrefix_spec :
    (∀ str pre : String,
      removePrefix str pre =
        if pre.length < str.length ∧ str.take pre.length = pre
            ∧ isupperChar (charAt str pre.length) then
          str.drop pre.length
        else str)
    ∧ removePrefix "ShapeCircle" "Shape" = "Circle"
    ∧ removePrefix "Circle" "Shape" = "Circle" := by
  refine ⟨fun str pre => ?_, by decide, by decide⟩
  unfold removePrefix
  by_cases h1 : pre.length ≥ str.length
  · rw [if_pos h1, if_neg]
    intro hc
    exact absurd hc.1 (by omega)
  · rw [if_neg h1]
    by_cases h2 : str.take pre.length = pre ∧ isupperChar (charAt str pre.length)
    · rw [if_pos h2, if_pos ⟨by omega, h2.1, h2.2⟩]
    · rw [if_neg h2, if_neg]
      intro hc
      exact h2 ⟨hc.2.1, hc.2.2⟩

/-- Claim C3 (amended): a direct self-referential field `Custom(C)` is projected
with a boxed indirection, `Option<Box<C[<'a>]>>`, and the projector does not
otherwise recurse into C beyond the lifetime analysis; but the parent guard is not
propagated into Vector elements, so a `Vector(Custom(C))` field is projected as
`Vec<Option<C[<'a>]>>` with no boxed indirection. -/
theorem rustType_self_reference (sch : Schema) (fuel : Nat) (n : String) :
    rustType sch fuel (.custom n) (some n)
      = (needsLifetimeType sch fuel (.custom n)).map
          (fun nl => "Option<" ++ ("Box<" ++ (n ++ (if nl then lt_a else "")) ++ ">") ++ ">")
    ∧ rustType sch fuel (.vector (.custom n)) (some n)
      = (needsLifetimeType sch fuel (.custom n)).map
          (fun nl => "Vec<" ++ ("Option<" ++ (n ++ (if nl then lt_a else "")) ++ ">") ++ ">") := by
  constructor
  · cases h : needsLifetimeType sch fuel (.custom n) <;> simp [rustType, h]
  · cases h : needsLifetimeType sch fuel (.custom n) <;> simp [rustType, h, Option.map_map]

/-- Claim C3, counterexample: in `treeSchema` the field type `Vector(Custom(Tree))`
occurring inside `Tree` itself is projected as `Vec<Option<Tree<'a>>>` — the claim's
boxed indirection is absent. -/
theorem rustType_vector_self_not_boxed_cex :
    rustType treeSchema 20 (.vector (.custom "Tree")) (some "Tree")
        = some ("Vec<" ++ ("Option<" ++ ("Tree" ++ lt_a) ++ ">") ++ ">")
    ∧ strHasSubstr ("Vec<" ++ ("Option<" ++ ("Tree" ++ lt_a) ++ ">") ++ ">") "Box" = false :=
  ⟨by rfl, by rfl⟩

/-- The accumulator loop of the Schema overload of `gen_rust_enums`, in closed
form: the per-type calls are exactly the multi-constructor custom types in order,
and the accumulated constructor list is every constructor in schema order. -/
theorem enumCallsAux_eq : ∀ (cts : List CustomType) (acc : List Constructor),
    enumCallsAux cts acc =
      ((cts.filter (fun ct => 1 < ct.constructors.length)).map
        (fun ct => ⟨gen_cpp_name ct.name, ct.constructors, true⟩),
       acc ++ cts.flatMap (fun ct => ct.constructors))
  | [], acc => by simp [enumCallsAux]
  | ct :: rest, acc => by
    by_cases hb : 1 < ct.constructors.length <;>
      simp [enumCallsAux, enumCallsAux_eq rest (acc ++ ct.constructors), hb,
        List.filter_cons, List.append_assoc]

/-- Claim C6: a per-type tagged union is emitted exactly for each CustomType with
two or more constructors (wrapping that type's constructors in order); the only
other unions emitted are the synthetic `Object` union over every constructor of
every CustomType in schema order and the synthetic `Function` union over every
function in schema order. -/
theorem enum_unions_characterization (sch : Schema) :
    enumCalls sch =
      ((sch.custom_types.filter (fun ct => 1 < ct.constructors.length)).map
        (fun ct => ⟨gen_cpp_name ct.name, ct.constructors, true⟩))
      ++ [⟨"Object", sch.custom_types.flatMap (fun ct => ct.constructors), false⟩,
          ⟨"Function", sch.functions, false⟩] := by
  simp [enumCalls, enumCallsAux_eq]

/-- Claim C1 (amended): the fallible conversion FROM the maximal `Object` union
and the total conversion INTO it are emitted exactly for the per-CustomType unions
(those with two or more constructors) and for neither synthetic union; moreover
the `generate_from_object` flag controls exactly the TryFrom/Into section of the
template's output, everything else (including the per-variant From conversions
from the bare structure types, which every union gets) being identical. -/
theorem tryfrom_conversions_flags (sch : Schema) :
    ((enumCalls sch).map (fun c => c.genFromObject)
        = ((sch.custom_types.filter (fun ct => 1 < ct.constructors.length)).map
            (fun _ => true)) ++ [false, false])
    ∧ ∀ (fuel : Nat) (name : String) (vec : List Constructor) (s : String),
        genRustEnumsT sch fuel name vec false = some s →
        ∃ (tyNL : Bool) (s0 : String),
          needsLifetimeConsList sch fuel vec = some tyNL
          ∧ s = s0 ++ "\n"
          ∧ genRustEnumsT sch fuel name vec true
              = some (s0 ++ tryFromIntoText name tyNL vec ++ "\n") := by
  constructor
  · simp [enumCalls, enumCallsAux_eq, List.map_map, Function.comp_def]
  · intro fuel name vec s h
    unfold genRustEnumsT at h
    split at h
    · exact absurd h (by simp)
    · rename_i tyNL h1
      split at h
      · exact absurd h (by simp)
      · rename_i consNL h2
        obtain rfl := Option.some_inj.mp h
        unfold genRustEnumsT
        rw [h1, h2]
        refine ⟨tyNL, _, rfl, rfl, ?_⟩
        simp [String.append_empty]

/-- Claim C1, counterexample: for the spec's `shape` schema the per-type `Shape`
union — not a synthetic one — carries the `generate_from_object` flag, and
accordingly the emitted `Shape` union text contains the `TryFrom` conversion while
the synthetic `Object` union's text does not. -/
theorem tryfrom_conversions_cex :
    (enumCalls shapeSchema).map (fun c => (c.name, c.genFromObject))
        = [("Shape", true), ("Object", false), ("Function", false)]
    ∧ strHasSubstr shapeShapeEnumText "TryFrom" = true
    ∧ strHasSubstr shapeObjectEnumText "TryFrom" = false :=
  ⟨by rfl, by rfl, by rfl⟩

/-- Concrete instantiation of `tryfrom_conversions_flags` at the `Object` call of
the `shape` schema. -/
theorem tryfrom_conversions_flags_witness :
    ∃ (tyNL : Bool) (s0 : String),
      needsLifetimeConsList shapeSchema 20 shapeAllCons = some tyNL
      ∧ shapeObjectEnumText = s0 ++ "\n"
      ∧ genRustEnumsT shapeSchema 20 "Object" shapeAllCons true
          = some (s0 ++ tryFromIntoText "Object" tyNL shapeAllCons ++ "\n") :=
  (tryfrom_conversions_flags shapeSchema).2 20 "Object" shapeAllCons shapeObjectEnumText (by rfl)

/-- Claim C8: a field whose transformed name is the reserved word `type` is
emitted under the deterministic rename `typ` and carries the explicit
serialization-name override so that its wire-level tag remains `type`. -/
theorem type_field_rename (sch : Schema) (fuel : Nat) (parent : String) (arg : Arg)
    (s : String) (hname : gen_cpp_name arg.name = "type")
    (hres : genRustStructArg sch fuel parent arg = some s) :
    ∃ attrPart ty : String,
      s = "\t#[serde(rename=\"type\")]\n" ++ attrPart ++ "\t\tpub " ++ "typ" ++ ": "
            ++ ty ++ ",\n" := by
  unfold genRustStructArg at hres
  rw [hname] at hres
  split at hres
  · exact absurd hres (by simp)
  · rename_i typeAttrs h1
    cases h2 : rustType sch fuel arg.type (some parent) with
    | none => rw [h2] at hres; simp at hres
    | some ty =>
      rw [h2] at hres
      simp only [reduceIte] at hres
      obtain rfl := Option.some_inj.mp hres
      exact ⟨_, ty, rfl⟩

/-- Concrete instantiation of `type_field_rename` on an Int32 field literally
named `type`. -/
theorem type_field_rename_witness :
    ∃ attrPart ty : String,
      c8Text = "\t#[serde(rename=\"type\")]\n" ++ attrPart ++ "\t\tpub " ++ "typ" ++ ": "
            ++ ty ++ ",\n" :=
  type_field_rename shapeSchema 5 "X" c8Arg c8Text (by rfl) (by rfl)

/-- Claim C9: a failed read of the prior content is not fatal — the run behaves
exactly as if the prior content were empty — and a finished run writes exactly
when the produced content differs from that empty baseline. -/
theorem read_failure_empty_baseline (sch : Schema) (fuel : Nat) :
    runGenRustFile sch fuel none = runGenRustFile sch fuel (some "")
    ∧ ∀ (c : String) (w : Bool),
        runGenRustFile sch fuel none = .finished c w → (w = true ↔ c ≠ "") := by
  refine ⟨rfl, ?_⟩
  intro c w h
  unfold runGenRustFile at h
  split at h
  · exact absurd h (by simp)
  · rename_i ps hp
    split at h
    · exact absurd h (by simp)
    · injection h with hc hw
      subst hc
      subst hw
      simp

/-- Concrete instantiation of `read_failure_empty_baseline` on the `shape`
schema: the run with a failed read equals the run with empty prior content, and
the produced non-empty content is written. -/
theorem read_failure_empty_baseline_witness :
    runGenRustFile shapeSchema 20 none = runGenRustFile shapeSchema 20 (some "")
    ∧ (true = true ↔ c9Content ≠ "") :=
  ⟨(read_failure_empty_baseline shapeSchema 20).1,
   (read_failure_empty_baseline shapeSchema 20).2 c9Content true (by rfl)⟩

/-- Claim C5: regeneration is idempotent — if a run over a schema finished with
content `c`, a second run over the same schema against prior content `c` produces
the byte-identical `c` and performs zero file writes. -/
theorem regeneration_idempotent (sch : Schema) (fuel : Nat) (old : Option String)
    (c : String) (w : Bool) (h : runGenRustFile sch fuel old = .finished c w) :
    runGenRustFile sch fuel (some c) = .finished c false := by
  unfold runGenRustFile at h ⊢
  split at h
  · exact absurd h (by simp)
  · split at h
    · exact absurd h (by simp)
    · rename_i herr
      injection h with hc hw
      subst hc
      simp [herr]

/-- Concrete two-run check on the `shape` schema: the second run reproduces the
first run's bytes and performs no write. -/
theorem regeneration_idempotent_witness :
    runGenRustFile shapeSchema 20 (some c5Content) = .finished c5Content false :=
  regeneration_idempotent shapeSchema 20 none c5Content true (by rfl)

/-- The length of the joined pieces is the sum of the pieces' lengths. -/
theorem join_length (l : List String) :
    (String.join l).length = (l.map String.length).sum := by
  have hd : (String.join l).length = (String.join l).data.length := rfl
  rw [hd, String.data_join, List.length_flatten, List.map_map]
  rfl

/-- The StringBuilder's sticky overflow flag, in closed form: starting from a
state that has not yet overflowed, the flag after appending the pieces is set
exactly when the capacity is exceeded by the total requested length. -/
theorem sbBuild_error_eq (ps : List String) :
    ∀ (st : SBState), (st.error = false → st.len ≤ sbCapacity) →
    (ps.foldl sbPush st).error
      = (st.error || decide (sbCapacity < st.len + (ps.map String.length).sum)) := by
  induction ps with
  | nil =>
    intro st hst
    cases hse : st.error with
    | true => simp [hse]
    | false => simp [hse, Nat.not_lt.mpr (hst hse)]
  | cons a t ih =>
    intro st hst
    have hpre : (sbPush st a).error = false → (sbPush st a).len ≤ sbCapacity := by
      intro he
      simp [sbPush] at he
      exact he.2
    rw [List.foldl_cons, ih (sbPush st a) hpre]
    simp only [sbPush, Bool.or_assoc, List.map_cons, List.sum_cons, Nat.add_assoc]
    by_cases hc : sbCapacity < st.len + a.length
    · have h2 : sbCapacity < st.len + (a.length + (t.map String.length).sum) := by omega
      simp [hc, h2]
    · simp [hc]

/-- Claim C10: the assembler builds its output in the fixed 2,000,000-character
scratch buffer and checks, before writing, that the StringBuilder recorded no
overflow; a run aborts at that assertion exactly when the emitted text would
exceed the capacity, and it never writes truncated output. -/
theorem overflow_aborts (sch : Schema) (fuel : Nat) (old : Option String) :
    runGenRustFile sch fuel old = .aborted
      ↔ ∃ c, genFileContent sch fuel = some c ∧ sbCapacity < c.length := by
  unfold runGenRustFile genFileContent
  cases hp : genFilePieces sch fuel with
  | none => simp
  | some ps =>
    have herr : (sbBuild ps).error = decide (sbCapacity < (String.join ps).length) := by
      have h := sbBuild_error_eq ps ⟨0, false⟩ (by intro; simp [sbCapacity])
      simpa [sbBuild, join_length] using h
    by_cases hc : sbCapacity < (String.join ps).length
    · simp [herr, hc]
    · simp [herr, hc]

/-- On the purely self-referential schema the lifetime analysis makes no progress:
every fuel is exhausted with no result, simultaneously for the type query, the
argument-list query and the constructor-list query. -/
theorem selfSchema_nl_none : ∀ n : Nat,
    needsLifetimeType selfSchema n (.custom "SelfRef") = none
    ∧ needsLifetimeArgs selfSchema n selfArgs = none
    ∧ needsLifetimeConsList selfSchema n selfCons = none := by
  intro n
  induction n with
  | zero => exact ⟨rfl, rfl, rfl⟩
  | succ m ih =>
    obtain ⟨ih1, ih2, ih3⟩ := ih
    refine ⟨?_, ?_, ?_⟩
    · have hlook : selfSchema.lookupConstructors "SelfRef" = selfCons := rfl
      simp only [needsLifetimeType, hlook]
      exact ih3
    · simp only [selfArgs, needsLifetimeArgs]
      rw [ih1]
    · simp only [selfCons, needsLifetimeConsList]
      rw [ih2]

/-- Claim C4, counterexample: on the schema whose CustomType `SelfRef` directly
contains itself, the C++ `needs_lifetime` recursion does not terminate — no
finite recursion depth yields a result. -/
theorem needsLifetime_diverges_cex :
    ¬ NeedsLifetimeTerminates selfSchema (.custom "SelfRef") := by
  rintro ⟨n, hn⟩
  rw [(selfSchema_nl_none n).1] at hn
  simp at hn

/-- Larger fuel never loses a lifetime-analysis result, for all three mutual
queries at once. -/
theorem nl_mono (sch : Schema) : ∀ (n m : Nat), n ≤ m →
    (∀ t b, needsLifetimeType sch n t = some b → needsLifetimeType sch m t = some b)
    ∧ (∀ args b, needsLifetimeArgs sch n args = some b → needsLifetimeArgs sch m args = some b)
    ∧ (∀ cl b, needsLifetimeConsList sch n cl = some b →
        needsLifetimeConsList sch m cl = some b) := by
  intro n
  induction n with
  | zero =>
    intro m _
    refine ⟨?_, ?_, ?_⟩ <;> intro x b h <;>
      simp only [needsLifetimeType, needsLifetimeArgs, needsLifetimeConsList] at h <;>
      exact Option.noConfusion h
  | succ k ih =>
    intro m hm
    obtain ⟨m', rfl⟩ : ∃ m', m = m' + 1 := ⟨m - 1, by omega⟩
    have hk : k ≤ m' := by omega
    refine ⟨?_, ?_, ?_⟩
    · intro t b h
      cases t with
      | vector e =>
        simp only [needsLifetimeType] at h ⊢
        exact (ih m' hk).1 e b h
      | custom nm =>
        simp only [needsLifetimeType] at h ⊢
        exact (ih m' hk).2.2 _ b h
      | _ => simpa only [needsLifetimeType] using h
    · intro args b h
      cases args with
      | nil => simpa only [needsLifetimeArgs] using h
      | cons a rest =>
        simp only [needsLifetimeArgs] at h ⊢
        cases ht : needsLifetimeType sch k a.type with
        | none => rw [ht] at h; simp at h
        | some bb =>
          rw [ht] at h
          rw [(ih m' hk).1 a.type bb ht]
          cases bb with
          | true => simpa using h
          | false => exact (ih m' hk).2.1 rest b (by simpa using h)
    · intro cl b h
      cases cl with
      | nil => simpa only [needsLifetimeConsList] using h
      | cons c rest =>
        simp only [needsLifetimeConsList] at h ⊢
        cases ht : needsLifetimeArgs sch k c.args with
        | none => rw [ht] at h; simp at h
        | some bb =>
          rw [ht] at h
          rw [(ih m' hk).2.1 c.args bb ht]
          cases bb with
          | true => simpa using h
          | false => exact (ih m' hk).2.2 rest b (by simpa using h)

/-- If every argument's type query terminates, the argument-list query
terminates. -/
theorem nl_args_terminates (sch : Schema) (args : List Arg)
    (h : ∀ a ∈ args, ∃ n b, needsLifetimeType sch n a.type = some b) :
    ∃ n b, needsLifetimeArgs sch n args = some b := by
  induction args with
  | nil => exact ⟨1, false, rfl⟩
  | cons a rest ih =>
    obtain ⟨n1, b1, h1⟩ := h a (by simp)
    obtain ⟨n2, b2, h2⟩ := ih (fun x hx => h x (by simp [hx]))
    have h1' := (nl_mono sch n1 (max n1 n2) (Nat.le_max_left _ _)).1 a.type b1 h1
    have h2' := (nl_mono sch n2 (max n1 n2) (Nat.le_max_right _ _)).2.1 rest b2 h2
    refine ⟨max n1 n2 + 1, ?_⟩
    cases b1 with
    | true => exact ⟨true, by simp only [needsLifetimeArgs, h1']⟩
    | false =>
      refine ⟨b2, ?_⟩
      simp only [needsLifetimeArgs, h1']
      exact h2'

/-- If every constructor's argument-list query terminates, the constructor-list
query terminates. -/
theorem nl_cons_terminates (sch : Schema) (cl : List Constructor)
    (h : ∀ c ∈ cl, ∃ n b, needsLifetimeArgs sch n c.args = some b) :
    ∃ n b, needsLifetimeConsList sch n cl = some b := by
  induction cl with
  | nil => exact ⟨1, false, rfl⟩
  | cons c rest ih =>
    obtain ⟨n1, b1, h1⟩ := h c (by simp)
    obtain ⟨n2, b2, h2⟩ := ih (fun x hx => h x (by simp [hx]))
    have h1' := (nl_mono sch n1 (max n1 n2) (Nat.le_max_left _ _)).2.1 c.args b1 h1
    have h2' := (nl_mono sch n2 (max n1 n2) (Nat.le_max_right _ _)).2.2 rest b2 h2
    refine ⟨max n1 n2 + 1, ?_⟩
    cases b1 with
    | true => exact ⟨true, by simp only [needsLifetimeConsList, h1']⟩
    | false =>
      refine ⟨b2, ?_⟩
      simp only [needsLifetimeConsList, h1']
      exact h2'

/-- Claim C4 (amended): the lifetime analysis terminates on every schema whose
Custom references admit a strictly decreasing rank (an acyclic Custom-reference
graph); it is not cycle-tolerant in general — see the divergence counterexample. -/
theorem needsLifetime_terminates_of_rank (sch : Schema) (rank : String → Nat)
    (hr : RankDecreasing sch rank) : ∀ t, NeedsLifetimeTerminates sch t := by
  have main : ∀ k t, (∀ m ∈ typeCustomNames t, rank m < k) →
      ∃ n b, needsLifetimeType sch n t = some b := by
    intro k
    induction k using Nat.strong_induction_on with
    | _ k ihk =>
      intro t
      induction t with
      | bool => exact fun _ => ⟨1, false, rfl⟩
      | int32 => exact fun _ => ⟨1, false, rfl⟩
      | int53 => exact fun _ => ⟨1, false, rfl⟩
      | int64 => exact fun _ => ⟨1, false, rfl⟩
      | double => exact fun _ => ⟨1, false, rfl⟩
      | string => exact fun _ => ⟨1, true, rfl⟩
      | bytes => exact fun _ => ⟨1, true, rfl⟩
      | vector e ihe =>
        intro h
        obtain ⟨n, b, hn⟩ := ihe (by simpa [typeCustomNames] using h)
        exact ⟨n + 1, b, by simp only [needsLifetimeType]; exact hn⟩
      | custom nm =>
        intro h
        have hrank : rank nm < k := h nm (by simp [typeCustomNames])
        cases hfind : sch.custom_types.find? (fun ct => ct.name == nm) with
        | none =>
          refine ⟨2, false, ?_⟩
          simp only [needsLifetimeType, Schema.lookupConstructors, hfind]
          rfl
        | some ct =>
          have hct_mem : ct ∈ sch.custom_types := List.mem_of_find?_eq_some hfind
          have hct_name : ct.name = nm := by
            have := List.find?_some hfind
            simpa using this
          have hcons : ∀ c ∈ ct.constructors, ∃ n b,
              needsLifetimeArgs sch n c.args = some b := by
            intro c hc
            apply nl_args_terminates
            intro a ha
            have hnames : ∀ m ∈ typeCustomNames a.type, rank m < rank nm := by
              intro m hm
              have := hr ct hct_mem c hc a ha m hm
              rwa [hct_name] at this
            exact ihk (rank nm) hrank a.type hnames
          obtain ⟨n, b, hn⟩ := nl_cons_terminates sch ct.constructors hcons
          refine ⟨n + 1, b, ?_⟩
          simp only [needsLifetimeType, Schema.lookupConstructors, hfind]
          exact hn
  intro t
  have hbound : ∀ m ∈ typeCustomNames t, rank m < ((typeCustomNames t).map rank).sum + 1 := by
    intro m hm
    have : rank m ≤ ((typeCustomNames t).map rank).sum :=
      List.single_le_sum (fun x _ => Nat.zero_le x) _ (List.mem_map_of_mem rank hm)
    omega
  obtain ⟨n, b, hn⟩ := main (((typeCustomNames t).map rank).sum + 1) t hbound
  exact ⟨n, by simp [hn]⟩

/-- Concrete instantiation of `needsLifetime_terminates_of_rank` on the acyclic
two-level schema: the analysis of `Custom(Node)` terminates. -/
theorem needsLifetime_terminates_of_rank_witness :
    NeedsLifetimeTerminates twoLevelSchema (.custom "Node") :=
  needsLifetime_terminates_of_rank twoLevelSchema rankTwo
    (by unfold RankDecreasing; decide) (.custom "Node")
